import Mathlib

/-!
Shallow embedding of the Iterated Prisoner's Dilemma simulator
(src/rng.ts `SeededRNG`, src/unnamed/part_000 `IPDEngine` and the type
declarations it imports).  JavaScript numbers are modelled by `ℝ`
(idealised real arithmetic); the 32-bit integer pipeline of the RNG is
modelled on `ℕ` with explicit `% 2^32` wherever JavaScript coerces to
32 bits.  Mutable engine state is threaded explicitly: the engine value
carries the configuration and the RNG cursor, and `IPDEngine.run`
returns the advanced engine next to its result.
-/

namespace IPD

/-- `Action` enum: C = 0, D = 1. -/
inductive Action where
  | C : Action
  | D : Action
deriving DecidableEq

/-- Numeric value of an action (the enum's numeric representation). -/
def Action.val : Action → ℕ
  | Action.C => 0
  | Action.D => 1

/-- The unchecked TS cast `i as Action` for an index into a 2-element row. -/
def actionOfIndex (n : ℕ) : Action :=
  if n = 0 then Action.C else Action.D

/-- `Strategy` enum. -/
inductive Strategy where
  | ALWAYS_C | ALWAYS_D | RANDOM | TIT_FOR_TAT | GRIM_TRIGGER | PAVLOV | RL_AGENT
deriving DecidableEq

/-- `LearningAlgorithm` enum. -/
inductive LearningAlgorithm where
  | Q_INCREMENTAL | REINFORCE_BASELINE | PREFERENCE
deriving DecidableEq

/-- `ActionSelection` enum. -/
inductive ActionSelection where
  | SOFTMAX | EPSILON_GREEDY | UCB
deriving DecidableEq

/-- `StateMemory` enum; its numeric enum value is the state count. -/
inductive StateMemory where
  | S1_GLOBAL | S2_OPP_MOVE | S4_BOTH_MOVE
deriving DecidableEq

/-- Numeric enum value of a `StateMemory` variant (1, 2 or 4). -/
def StateMemory.val : StateMemory → ℕ
  | StateMemory.S1_GLOBAL => 1
  | StateMemory.S2_OPP_MOVE => 2
  | StateMemory.S4_BOTH_MOVE => 4

/-- `ExplorationSchedule` enum. -/
inductive ExplorationSchedule where
  | NONE | EXP | LINEAR
deriving DecidableEq

/-- The `explorationConfig` record of `SimulationConfig`. -/
structure ExplorationConfig where
  schedule : ExplorationSchedule
  start : ℝ
  min : ℝ
  decay : ℝ
  slope : ℝ
  startTrial : ℕ

/-- `SimulationConfig` (src/unnamed/part_000, `interface SimulationConfig`). -/
structure SimulationConfig where
  nTrials : ℕ
  blockSize : ℕ
  seed : ℕ
  payoff : List (List ℝ)
  agentStrategy : Strategy
  opponentStrategy : Strategy
  pCooperate : ℝ
  pCooperateOpponent : ℝ
  learningAlgorithm : LearningAlgorithm
  actionSelection : ActionSelection
  stateMemory : StateMemory
  alpha : Option ℝ
  alphaB : ℝ
  alphaPi : ℝ
  gamma : ℝ
  ucbC : ℝ
  explorationConfig : ExplorationConfig
  initialQ : List (List ℝ)
  initialH : List (List ℝ)

/-- `TrialResult`; the `parameters` snapshot `{S0C, S0D, S1C, ...}` is kept
as the list of its `(S{s}C, S{s}D)` rows in state order. -/
structure TrialResult where
  trial : ℕ
  agentAction : Action
  opponentAction : Action
  reward : ℝ
  explorationParam : ℝ
  parameters : List (ℝ × ℝ)

instance : Inhabited TrialResult :=
  ⟨⟨0, Action.C, Action.C, 0, 0, []⟩⟩

/-- `BlockResult`. -/
structure BlockResult where
  block : ℕ
  midpoint : ℝ
  pctCooperate : ℝ
  oppPctCooperate : ℝ
  meanReward : ℝ
  meanExplorationParam : ℝ
  parameters : List (ℝ × ℝ)

/-! ### src/rng.ts — Mulberry32 -/

/-- `Math.imul`: 32-bit wrapping product (bit pattern). -/
def imul32 (a b : ℕ) : ℕ := (a * b) % 4294967296

/-- `SeededRNG.next` of src/rng.ts, returning (32-bit output word, new
stored state).  The stored state is a JS double that grows by
`0x6D2B79F5` each call without wrapping; the bitwise pipeline coerces it
to 32 bits. -/
def SeededRNG.next (state : ℕ) : ℕ × ℕ :=
  let s := state + 0x6D2B79F5
  let t0 := s % 4294967296
  let t1 := imul32 (t0 ^^^ (t0 >>> 15)) (t0 ||| 1)
  let t2 := t1 ^^^ ((t1 + imul32 (t1 ^^^ (t1 >>> 7)) (t1 ||| 61)) % 4294967296)
  (t2 ^^^ (t2 >>> 14), s)

/-- The float in [0,1) that `next()` returns: word / 4294967296. -/
noncomputable def nextFloat (state : ℕ) : ℝ × ℕ :=
  (((SeededRNG.next state).1 : ℝ) / 4294967296, (SeededRNG.next state).2)

/-! ### Table helpers: `m[s][a]` reads and writes on list-of-rows tables -/

/-- Read entry `m[s][a]` (default for out-of-range, never hit by the engine). -/
def get2 {α : Type} [Inhabited α] (m : List (List α)) (s a : ℕ) : α :=
  (m.getD s []).getD a default

/-- Write entry `m[s][a]`. -/
def set2 {α : Type} [Inhabited α] (m : List (List α)) (s a : ℕ) (v : α) : List (List α) :=
  m.set s ((m.getD s []).set a v)

/-! ### IPDEngine private helpers -/

/-- `IPDEngine.getExplorationParam`. -/
noncomputable def getExplorationParam (ec : ExplorationConfig) (trial : ℕ) : ℝ :=
  if ec.schedule = ExplorationSchedule.NONE ∨ trial < ec.startTrial then ec.start
  else
    let t : ℕ := trial - ec.startTrial
    if ec.schedule = ExplorationSchedule.LINEAR then
      max ec.min (ec.start - ec.slope * t)
    else if ec.schedule = ExplorationSchedule.EXP then
      max ec.min (ec.start * Real.exp (-(ec.decay * t)))
    else ec.start

/-- `IPDEngine.softmax`: exponentials of values over the clamped
temperature, normalised by their sum. -/
noncomputable def softmax (values : List ℝ) (tau : ℝ) : List ℝ :=
  let e := values.map (fun v => Real.exp (v / max tau 0.000001))
  e.map (fun x => x / e.sum)

/-- Loop body of `IPDEngine.selectActionSoftmax`: walk the probabilities
accumulating `cumulative`, returning the first index where `r < cumulative`. -/
noncomputable def selectLoop (r : ℝ) : List ℝ → ℝ → ℕ → Option ℕ
  | [], _, _ => none
  | p :: rest, cumulative, i =>
    if r < cumulative + p then some i else selectLoop r rest (cumulative + p) (i + 1)

/-- Index returned by `IPDEngine.selectActionSoftmax` for a drawn `r`:
the loop's hit, or the last index as fallback. -/
noncomputable def selectActionIndex (probs : List ℝ) (r : ℝ) : ℕ :=
  (selectLoop r probs 0 0).getD (probs.length - 1)

/-- `IPDEngine.selectActionSoftmax`: draws `r` from the RNG, then samples. -/
noncomputable def selectActionSoftmax (probs : List ℝ) (rng : ℕ) : Action × ℕ :=
  (actionOfIndex (selectActionIndex probs (nextFloat rng).1), (nextFloat rng).2)

/-- `IPDEngine.getState`. -/
def getState (stateMemory : StateMemory) (agentLastAction opponentLastAction : Option Action) : ℕ :=
  if stateMemory = StateMemory.S1_GLOBAL then 0
  else
    -- Treat null as Cooperate for initial state encoding
    let aLast := agentLastAction.getD Action.C
    let oLast := opponentLastAction.getD Action.C
    if stateMemory = StateMemory.S2_OPP_MOVE then oLast.val
    else if stateMemory = StateMemory.S4_BOTH_MOVE then
      -- CC=0, CD=1, DC=2, DD=3
      aLast.val * 2 + oLast.val
    else 0

/-- `IPDEngine.determineStrategyAction`; the mutable `state.grimTriggered`
cell and the RNG cursor are threaded through the result. -/
noncomputable def determineStrategyAction (strategy : Strategy) (t : ℕ)
    (lastOpponentAction ownLastAction : Option Action)
    (pCooperate : ℝ) (grimTriggered : Bool) (rng : ℕ) : Action × Bool × ℕ :=
  match strategy with
  | Strategy.ALWAYS_C => (Action.C, grimTriggered, rng)
  | Strategy.ALWAYS_D => (Action.D, grimTriggered, rng)
  | Strategy.RANDOM =>
      (if (nextFloat rng).1 < pCooperate then Action.C else Action.D,
       grimTriggered, (nextFloat rng).2)
  | Strategy.TIT_FOR_TAT =>
      (if t = 0 then Action.C else lastOpponentAction.getD Action.C, grimTriggered, rng)
  | Strategy.GRIM_TRIGGER =>
      let trig := if lastOpponentAction = some Action.D then true else grimTriggered
      (if trig then Action.D else Action.C, trig, rng)
  | Strategy.PAVLOV =>
      (if t = 0 then Action.C
       else if ownLastAction = lastOpponentAction then Action.C else Action.D,
       grimTriggered, rng)
  | Strategy.RL_AGENT => (Action.C, grimTriggered, rng)   -- the switch's default arm

/-- `IPDEngine.getParamsSnapshot`: the `{S{s}C, S{s}D}` record, as its rows
in state order, read from `Q` for Incremental-Q and from `H` otherwise. -/
def getParamsSnapshot (Q H : List (List ℝ)) (learningAlgorithm : LearningAlgorithm)
    (numStates : ℕ) : List (ℝ × ℝ) :=
  let source := if learningAlgorithm = LearningAlgorithm.Q_INCREMENTAL then Q else H
  (List.range numStates).map (fun s => (get2 source s 0, get2 source s 1))

/-! ### Learning updates (run, lines 196–213) -/

/-- Incremental-Q update (run, lines 196–201): increment `N[s][a]` first,
learning rate α or `1/N[s][a]`, bootstrapped target, move `Q[s][a]`. -/
noncomputable def qUpdate (alpha : Option ℝ) (gamma : ℝ)
    (Q : List (List ℝ)) (N : List (List ℕ)) (s : ℕ) (a : Action) (reward : ℝ)
    (sNext : ℕ) : List (List ℝ) × List (List ℕ) :=
  let N1 := set2 N s a.val (get2 N s a.val + 1)
  let lr := match alpha with
    | none => 1 / ((get2 N1 s a.val : ℕ) : ℝ)
    | some al => al
  let maxQNext := max (get2 Q sNext 0) (get2 Q sNext 1)
  let target := reward + gamma * maxQNext
  (set2 Q s a.val (get2 Q s a.val + lr * (target - get2 Q s a.val)), N1)

/-- REINFORCE update (run, lines 202–213): advantage against the
pre-update baseline, EMA baseline step for the with-baseline variant,
then the likelihood-ratio update of the two `H[s]` entries in index
order (the source loop runs `i = 0, 1`). -/
noncomputable def reinforceUpdate (learningAlgorithm : LearningAlgorithm)
    (alphaB alphaPi : ℝ) (H : List (List ℝ)) (b : List ℝ) (s : ℕ) (a : Action)
    (reward : ℝ) (pi : List ℝ) : List (List ℝ) × List ℝ :=
  let baseline := if learningAlgorithm = LearningAlgorithm.REINFORCE_BASELINE then b.getD s 0 else 0
  let advantage := reward - baseline
  let b1 := if learningAlgorithm = LearningAlgorithm.REINFORCE_BASELINE then
      b.set s (b.getD s 0 + alphaB * (reward - b.getD s 0))
    else b
  let H1 := set2 H s 0
      (get2 H s 0 + alphaPi * advantage * ((if 0 = a.val then 1 else 0) - pi.getD 0 0))
  let H2 := set2 H1 s 1
      (get2 H1 s 1 + alphaPi * advantage * ((if 1 = a.val then 1 else 0) - pi.getD 1 0))
  (H2, b1)

/-! ### The per-trial loop of `IPDEngine.run` -/

/-- The learning tables owned by one `run` invocation. -/
structure Tables where
  Q : List (List ℝ)
  N : List (List ℕ)
  H : List (List ℝ)
  b : List ℝ

/-- The loop-carried state of `IPDEngine.run`. -/
structure LoopState where
  agentLast : Option Action
  oppLast : Option Action
  agentGrim : Bool
  oppGrim : Bool
  tables : Tables
  rng : ℕ

/-- Step 1 of a trial (run, lines 142–185): resolve the agent's action.
Returns (action, probs actually used, agent grim flag, RNG cursor). -/
noncomputable def agentChoice (cfg : SimulationConfig) (exParam : ℝ) (s : ℕ)
    (t : ℕ) (st : LoopState) : Action × List ℝ × Bool × ℕ :=
  if cfg.agentStrategy = Strategy.RL_AGENT then
    if cfg.learningAlgorithm = LearningAlgorithm.Q_INCREMENTAL then
      if cfg.actionSelection = ActionSelection.SOFTMAX then
        let probs := softmax (st.tables.Q.getD s []) exParam
        let sel := selectActionSoftmax probs st.rng
        (sel.1, probs, st.agentGrim, sel.2)
      else if cfg.actionSelection = ActionSelection.EPSILON_GREEDY then
        let d1 := nextFloat st.rng
        if d1.1 < exParam then
          let d2 := nextFloat d1.2
          (if d2.1 < 0.5 then Action.C else Action.D, [0.5, 0.5], st.agentGrim, d2.2)
        else if |get2 st.tables.Q s 0 - get2 st.tables.Q s 1| < 1e-10 then
          let d2 := nextFloat d1.2
          (if d2.1 < 0.5 then Action.C else Action.D, [0.5, 0.5], st.agentGrim, d2.2)
        else
          (if get2 st.tables.Q s 0 > get2 st.tables.Q s 1 then Action.C else Action.D,
           [0.5, 0.5], st.agentGrim, d1.2)
      else   -- UCB
        let totalN := get2 st.tables.N s 0 + get2 st.tables.N s 1
        if get2 st.tables.N s 0 = 0 ∧ get2 st.tables.N s 1 = 0 then
          let d := nextFloat st.rng
          (if d.1 < 0.5 then Action.C else Action.D, [0.5, 0.5], st.agentGrim, d.2)
        else if get2 st.tables.N s 0 = 0 then
          (Action.C, [0.5, 0.5], st.agentGrim, st.rng)
        else if get2 st.tables.N s 1 = 0 then
          (Action.D, [0.5, 0.5], st.agentGrim, st.rng)
        else
          let ucb0 := get2 st.tables.Q s 0 +
            cfg.ucbC * Real.sqrt (Real.log ((totalN : ℝ) + 1) / ((get2 st.tables.N s 0 : ℕ) : ℝ))
          let ucb1 := get2 st.tables.Q s 1 +
            cfg.ucbC * Real.sqrt (Real.log ((totalN : ℝ) + 1) / ((get2 st.tables.N s 1 : ℕ) : ℝ))
          if |ucb0 - ucb1| < 1e-10 then
            let d := nextFloat st.rng
            (if d.1 < 0.5 then Action.C else Action.D, [0.5, 0.5], st.agentGrim, d.2)
          else
            (if ucb0 > ucb1 then Action.C else Action.D, [0.5, 0.5], st.agentGrim, st.rng)
    else
      let probs := softmax (st.tables.H.getD s []) exParam
      let sel := selectActionSoftmax probs st.rng
      (sel.1, probs, st.agentGrim, sel.2)
  else
    let res := determineStrategyAction cfg.agentStrategy t st.oppLast st.agentLast
        cfg.pCooperate st.agentGrim st.rng
    (res.1, [0.5, 0.5], res.2.1, res.2.2)

/-- One iteration of the trial loop of `IPDEngine.run` (lines 138–227). -/
noncomputable def step (cfg : SimulationConfig) (t : ℕ) (st : LoopState) :
    TrialResult × LoopState :=
  let numStates := cfg.stateMemory.val
  let exParam := getExplorationParam cfg.explorationConfig t
  let s := getState cfg.stateMemory st.agentLast st.oppLast
  -- 1. Determine Agent Action
  let ac := agentChoice cfg exParam s t st
  let agentAction := ac.1
  let probs := ac.2.1
  let agentGrim1 := ac.2.2.1
  let rng1 := ac.2.2.2
  -- 2. Determine Opponent Action
  let oc := determineStrategyAction cfg.opponentStrategy t st.agentLast st.oppLast
      cfg.pCooperateOpponent st.oppGrim rng1
  let oppAction := oc.1
  let oppGrim1 := oc.2.1
  let rng2 := oc.2.2
  let reward := (cfg.payoff.getD agentAction.val []).getD oppAction.val 0
  -- 3. Update RL Agent if applicable
  let sNext := getState cfg.stateMemory (some agentAction) (some oppAction)
  let tb := st.tables
  let tb1 : Tables :=
    if cfg.agentStrategy = Strategy.RL_AGENT then
      if cfg.learningAlgorithm = LearningAlgorithm.Q_INCREMENTAL then
        let qn := qUpdate cfg.alpha cfg.gamma tb.Q tb.N s agentAction reward sNext
        { Q := qn.1, N := qn.2, H := tb.H, b := tb.b }
      else
        let hb := reinforceUpdate cfg.learningAlgorithm cfg.alphaB cfg.alphaPi
            tb.H tb.b s agentAction reward probs
        { Q := tb.Q, N := tb.N, H := hb.1, b := hb.2 }
    else tb
  let tr : TrialResult :=
    { trial := t, agentAction := agentAction, opponentAction := oppAction,
      reward := reward, explorationParam := exParam,
      parameters := getParamsSnapshot tb1.Q tb1.H cfg.learningAlgorithm numStates }
  (tr, { agentLast := some agentAction, oppLast := some oppAction,
         agentGrim := agentGrim1, oppGrim := oppGrim1, tables := tb1, rng := rng2 })

/-- The trial loop: `n` remaining trials starting at index `t`. -/
noncomputable def runTrials (cfg : SimulationConfig) : ℕ → ℕ → LoopState →
    List TrialResult × LoopState
  | 0, _, st => ([], st)
  | n + 1, t, st =>
    let p := step cfg t st
    let rest := runTrials cfg n (t + 1) p.2
    (p.1 :: rest.1, rest.2)

/-! ### Block aggregation (run, lines 229–247) -/

/-- Count of trials in a slice whose agent action is Cooperate. -/
def countAgentC (slice : List TrialResult) : ℕ :=
  (slice.filter (fun tr => tr.agentAction = Action.C)).length

/-- Count of trials in a slice whose opponent action is Cooperate. -/
def countOppC (slice : List TrialResult) : ℕ :=
  (slice.filter (fun tr => tr.opponentAction = Action.C)).length

/-- One `BlockResult` from the slice starting at trial index `i`. -/
noncomputable def mkBlock (blockSize i : ℕ) (slice : List TrialResult) : BlockResult :=
  { block := i / blockSize,
    midpoint := (i : ℝ) + (slice.length : ℝ) / 2,
    pctCooperate := ((countAgentC slice : ℝ) / (slice.length : ℝ)) * 100,
    oppPctCooperate := ((countOppC slice : ℝ) / (slice.length : ℝ)) * 100,
    meanReward := (slice.map (fun tr => tr.reward)).sum / (slice.length : ℝ),
    meanExplorationParam := (slice.map (fun tr => tr.explorationParam)).sum / (slice.length : ℝ),
    parameters := (slice.getD (slice.length - 1) default).parameters }

/-- The `for (i = 0; i < nTrials; i += blockSize)` loop over the recorded
trials.  For `blockSize = 0` the source loop would not terminate; that
case is unreachable from the claims and is mapped to `[]`. -/
noncomputable def mkBlocksFrom (blockSize i : ℕ) : List TrialResult → List BlockResult
  | [] => []
  | x :: xs =>
    if blockSize = 0 then []
    else
      mkBlock blockSize i ((x :: xs).take blockSize) ::
        mkBlocksFrom blockSize (i + blockSize) ((x :: xs).drop blockSize)
termination_by l => l.length
decreasing_by simp [List.length_drop]; omega

/-- All blocks of a run. -/
noncomputable def mkBlocks (blockSize : ℕ) (trials : List TrialResult) : List BlockResult :=
  mkBlocksFrom blockSize 0 trials

/-! ### The engine -/

/-- An `IPDEngine` instance: its configuration and the persistent RNG
cursor (`this.rng`'s state). -/
structure Engine where
  config : SimulationConfig
  rngState : ℕ

/-- The `IPDEngine` constructor: stores the config, seeds the RNG once. -/
def mkEngine (cfg : SimulationConfig) : Engine :=
  { config := cfg, rngState := cfg.seed }

/-- The record `{ trials, blocks }` returned by `IPDEngine.run`. -/
structure RunResult where
  trials : List TrialResult
  blocks : List BlockResult

/-- `IPDEngine.run`: builds fresh working tables from the configuration
(`initialQ.slice(0, numStates).map(row => [...row])` copies; the spread
copy is the identity in this pure model), runs the trial loop, and
aggregates blocks.  The advanced engine is returned next to the result:
the RNG cursor persists on the instance across calls. -/
noncomputable def IPDEngine.run (e : Engine) : RunResult × Engine :=
  let cfg := e.config
  let numStates := cfg.stateMemory.val
  let st0 : LoopState :=
    { agentLast := none, oppLast := none, agentGrim := false, oppGrim := false,
      tables :=
        { Q := cfg.initialQ.take numStates,
          N := List.replicate numStates [0, 0],
          H := cfg.initialH.take numStates,
          b := List.replicate numStates 0 },
      rng := e.rngState }
  let p := runTrials cfg cfg.nTrials 0 st0
  ({ trials := p.1, blocks := mkBlocks cfg.blockSize p.1 },
   { config := e.config, rngState := p.2.rng })

/-! ### Concrete configurations used to instantiate theorems -/

/-- A small concrete configuration: a Random(½) agent against
Always-Defect, one trial per run, seed 1. -/
def cfgA : SimulationConfig :=
  { nTrials := 1, blockSize := 1, seed := 1, payoff := [[3, 0], [5, 1]],
    agentStrategy := Strategy.RANDOM, opponentStrategy := Strategy.ALWAYS_D,
    pCooperate := 0.5, pCooperateOpponent := 0.5,
    learningAlgorithm := LearningAlgorithm.Q_INCREMENTAL,
    actionSelection := ActionSelection.SOFTMAX,
    stateMemory := StateMemory.S1_GLOBAL,
    alpha := some 0.1, alphaB := 0.1, alphaPi := 0.1, gamma := 0.9, ucbC := 2,
    explorationConfig :=
      { schedule := ExplorationSchedule.NONE, start := 1, min := 0.1,
        decay := 0.01, slope := 0.002, startTrial := 0 },
    initialQ := [[0, 0]], initialH := [[0, 0]] }

/-- `cfgA` with no trials at all. -/
def cfgB : SimulationConfig := { cfgA with nTrials := 0 }

/-- `cfgA` with fewer trials than one block. -/
def cfgC : SimulationConfig := { cfgA with nTrials := 2, blockSize := 5 }

/-- `cfgA` with ten trials in blocks of four. -/
def cfgD : SimulationConfig := { cfgA with nTrials := 10, blockSize := 4 }

/-- Always-Defect agent against a Grim-Trigger opponent over three trials. -/
def cfgE : SimulationConfig :=
  { cfgA with
    nTrials := 3
    agentStrategy := Strategy.ALWAYS_D
    opponentStrategy := Strategy.GRIM_TRIGGER }

/-- Grim-Trigger agent against an Always-Defect opponent over three trials. -/
def cfgF : SimulationConfig :=
  { cfgA with
    nTrials := 3
    agentStrategy := Strategy.GRIM_TRIGGER
    opponentStrategy := Strategy.ALWAYS_D }

end IPD

namespace IPD

/-! ### Table read/write lemmas -/

theorem length_set2 {α : Type} [Inhabited α] (m : List (List α)) (s a : ℕ) (v : α) :
    (set2 m s a v).length = m.length := by
  unfold set2; exact List.length_set m s _

theorem getD_row_set2 {α : Type} [Inhabited α] (m : List (List α)) (s a : ℕ) (v : α)
    (hs : s < m.length) :
    (set2 m s a v).getD s [] = (m.getD s []).set a v := by
  unfold set2
  rw [List.getD_eq_getElem?_getD, List.getElem?_set_self hs]
  rfl

theorem get2_set2_self {α : Type} [Inhabited α] (m : List (List α)) (s a : ℕ) (v : α)
    (hs : s < m.length) (ha : a < (m.getD s []).length) :
    get2 (set2 m s a v) s a = v := by
  unfold get2
  rw [getD_row_set2 m s a v hs, List.getD_eq_getElem?_getD, List.getElem?_set_self ha]
  rfl

theorem get2_set2_ne_inner {α : Type} [Inhabited α] (m : List (List α)) (s a a' : ℕ) (v : α)
    (hs : s < m.length) (hne : a ≠ a') :
    get2 (set2 m s a v) s a' = get2 m s a' := by
  unfold get2
  rw [getD_row_set2 m s a v hs, List.getD_eq_getElem?_getD, List.getElem?_set_ne hne,
    ← List.getD_eq_getElem?_getD]

theorem get2_set2_ne_outer {α : Type} [Inhabited α] (m : List (List α)) (s s' a a' : ℕ) (v : α)
    (hne : s ≠ s') :
    get2 (set2 m s a v) s' a' = get2 m s' a' := by
  unfold get2 set2
  simp only [List.getD_eq_getElem?_getD, List.getElem?_set_ne hne]

/-! ### Claim theorems -/

/-- C7: the state encoder treats an absent previous action as Cooperate;
Global mode always returns 0; Opponent-Last-Move mode returns the
opponent's last action's value; Both-Last-Moves mode returns
`agentLast*2 + opponentLast` (CC=0, CD=1, DC=2, DD=3); and the state at
trial 0 (no history) is the state of prior mutual cooperation in every
mode. -/
theorem getState_spec :
    ∀ aL oL : Option Action,
      getState StateMemory.S1_GLOBAL aL oL = 0
      ∧ getState StateMemory.S2_OPP_MOVE aL oL = (oL.getD Action.C).val
      ∧ getState StateMemory.S4_BOTH_MOVE aL oL
          = (aL.getD Action.C).val * 2 + (oL.getD Action.C).val
      ∧ ∀ m : StateMemory, getState m none none = getState m (some Action.C) (some Action.C) := by
  intro aL oL
  refine ⟨rfl, ?_, ?_, ?_⟩
  · rcases oL with _ | o <;> rfl
  · rcases aL with _ | a <;> rcases oL with _ | o <;> rfl
  · intro m; cases m <;> rfl

/-- C1: the engine's output is a deterministic function of the
configuration alone — two `run` invocations on freshly constructed
engines over the same configuration produce identical trial sequences
and identical block sequences. -/
theorem run_deterministic (cfg : SimulationConfig) (e1 e2 : Engine)
    (h1 : e1 = mkEngine cfg) (h2 : e2 = mkEngine cfg) :
    (IPDEngine.run e1).1.trials = (IPDEngine.run e2).1.trials
    ∧ (IPDEngine.run e1).1.blocks = (IPDEngine.run e2).1.blocks := by
  subst h1; subst h2; exact ⟨rfl, rfl⟩

/-- Witness for C1 at the concrete configuration `cfgA`. -/
theorem run_deterministic_witness :
    (IPDEngine.run (mkEngine cfgA)).1.trials = (IPDEngine.run (mkEngine cfgA)).1.trials
    ∧ (IPDEngine.run (mkEngine cfgA)).1.blocks = (IPDEngine.run (mkEngine cfgA)).1.blocks :=
  run_deterministic cfgA (mkEngine cfgA) (mkEngine cfgA) rfl rfl

/-- C3: the Incremental-Q updater first increments `N[s][a]`, uses the
configured α when non-null and `1/N[s][a]` (post-increment) otherwise,
and performs `Q[s][a] += lr * ((r + γ * max(Q[sN][0], Q[sN][1])) - Q[s][a])`;
consequently with `α = 1`, `γ = 0` and reward `r` the entry `Q[s][a]`
equals `r` after the visit — so it becomes `r` on the first visit and,
the update being repeated with the same fixed reward, stays `r` on every
later visit. -/
theorem qUpdate_spec (alpha : Option ℝ) (gamma : ℝ) (Q : List (List ℝ))
    (N : List (List ℕ)) (s : ℕ) (a : Action) (r : ℝ) (sN : ℕ)
    (hsQ : s < Q.length) (hsN : s < N.length)
    (haQ : a.val < (Q.getD s []).length) (haN : a.val < (N.getD s []).length) :
    (qUpdate alpha gamma Q N s a r sN).2 = set2 N s a.val (get2 N s a.val + 1)
    ∧ (qUpdate alpha gamma Q N s a r sN).1
        = set2 Q s a.val (get2 Q s a.val
            + alpha.getD (1 / (((get2 N s a.val : ℕ) : ℝ) + 1))
              * ((r + gamma * max (get2 Q sN 0) (get2 Q sN 1)) - get2 Q s a.val))
    ∧ (alpha = some 1 → gamma = 0 →
        get2 (qUpdate alpha gamma Q N s a r sN).1 s a.val = r)
    ∧ (alpha = some 1 → gamma = 0 → get2 Q s a.val = r →
        get2 (qUpdate alpha gamma Q N s a r sN).1 s a.val = r) := by
  have hN1 : get2 (set2 N s a.val (get2 N s a.val + 1)) s a.val = get2 N s a.val + 1 :=
    get2_set2_self N s a.val _ hsN haN
  have hchar : (qUpdate alpha gamma Q N s a r sN).1
      = set2 Q s a.val (get2 Q s a.val
          + alpha.getD (1 / (((get2 N s a.val : ℕ) : ℝ) + 1))
            * ((r + gamma * max (get2 Q sN 0) (get2 Q sN 1)) - get2 Q s a.val)) := by
    unfold qUpdate
    cases alpha with
    | none => simp only [Option.getD_none, hN1]; push_cast; ring_nf
    | some al => simp only [Option.getD_some]
  have hfirst : alpha = some 1 → gamma = 0 →
      get2 (qUpdate alpha gamma Q N s a r sN).1 s a.val = r := by
    intro h1 h0
    subst h1; subst h0
    rw [hchar, get2_set2_self Q s a.val _ hsQ haQ]
    simp only [Option.getD_some]
    ring
  exact ⟨rfl, hchar, hfirst, fun h1 h0 _ => hfirst h1 h0⟩

/-- Witness for C3: one visit with α = 1, γ = 0, reward 5 sets the entry to 5. -/
theorem qUpdate_spec_witness :
    get2 (qUpdate (some 1) 0 [[0, 0]] [[0, 0]] 0 Action.C 5 0).1 0 0 = 5 := by
  have h := qUpdate_spec (some 1) 0 [[0, 0]] [[0, 0]] 0 Action.C 5 0
    (by simp) (by simp) (by simp [Action.val]) (by simp [Action.val])
  simpa [Action.val] using h.2.2.1 rfl rfl

/-- C4: on a REINFORCE trial, the advantage is the reward minus the
pre-update baseline (0 without baseline, the stored `b[s]` read before
its update with baseline); the with-baseline variant then performs
`b[s] += αb * (r - b[s])`; and each preference entry is updated by
`H[s][i] += απ * advantage * ((i == a ? 1 : 0) - π[i])` with the π that
selected the action. -/
theorem reinforceUpdate_spec (algo : LearningAlgorithm) (alphaB alphaPi : ℝ)
    (H : List (List ℝ)) (b : List ℝ) (s : ℕ) (a : Action) (r : ℝ) (pi : List ℝ)
    (hsH : s < H.length) (hlen : (H.getD s []).length = 2) :
    (reinforceUpdate algo alphaB alphaPi H b s a r pi).2
      = (if algo = LearningAlgorithm.REINFORCE_BASELINE then
          b.set s (b.getD s 0 + alphaB * (r - b.getD s 0)) else b)
    ∧ ∀ i, i < 2 →
        get2 (reinforceUpdate algo alphaB alphaPi H b s a r pi).1 s i
          = get2 H s i
            + alphaPi
              * (r - (if algo = LearningAlgorithm.REINFORCE_BASELINE then b.getD s 0 else 0))
              * ((if i = a.val then 1 else 0) - pi.getD i 0) := by
  refine ⟨rfl, ?_⟩
  intro i hi
  have hsH1 : s < (set2 H s 0
      (get2 H s 0 + alphaPi * (r - (if algo = LearningAlgorithm.REINFORCE_BASELINE
        then b.getD s 0 else 0)) * ((if 0 = a.val then 1 else 0) - pi.getD 0 0))).length := by
    rw [length_set2]; exact hsH
  have hrow1 : ((set2 H s 0
      (get2 H s 0 + alphaPi * (r - (if algo = LearningAlgorithm.REINFORCE_BASELINE
        then b.getD s 0 else 0)) * ((if 0 = a.val then 1 else 0) - pi.getD 0 0))).getD s []).length = 2 := by
    rw [getD_row_set2 _ _ _ _ hsH, List.length_set, hlen]
  interval_cases i
  · show get2 (set2 _ s 1 _) s 0 = _
    rw [get2_set2_ne_inner _ s 1 0 _ hsH1 (by omega),
      get2_set2_self H s 0 _ hsH (by omega)]
  · show get2 (set2 _ s 1 _) s 1 = _
    rw [get2_set2_self _ s 1 _ hsH1 (by omega),
      get2_set2_ne_inner H s 0 1 _ hsH (by omega)]

/-- Witness for C4 at a concrete with-baseline update. -/
theorem reinforceUpdate_spec_witness :
    (reinforceUpdate LearningAlgorithm.REINFORCE_BASELINE (1/2) (1/4)
        [[0, 0]] [3] 0 Action.D 4 [1/2, 1/2]).2
      = [3 + (1/2) * (4 - 3)]
    ∧ get2 (reinforceUpdate LearningAlgorithm.REINFORCE_BASELINE (1/2) (1/4)
        [[0, 0]] [3] 0 Action.D 4 [1/2, 1/2]).1 0 1
      = 0 + (1/4) * (4 - 3) * (1 - 1/2) := by
  have h := reinforceUpdate_spec LearningAlgorithm.REINFORCE_BASELINE (1/2) (1/4)
    [[0, 0]] [3] 0 Action.D 4 [1/2, 1/2] (by simp) (by simp)
  refine ⟨?_, ?_⟩
  · simpa using h.1
  · have h1 := h.2 1 (by omega)
    simpa [Action.val, get2] using h1

/-! ### Loop and block lemmas -/

theorem runTrials_length (cfg : SimulationConfig) :
    ∀ (n t : ℕ) (st : LoopState), (runTrials cfg n t st).1.length = n := by
  intro n
  induction n with
  | zero => intro t st; rfl
  | succ m ih =>
    intro t st
    show ((step cfg t st).1 :: (runTrials cfg m (t + 1) (step cfg t st).2).1).length = m + 1
    rw [List.length_cons, ih]

theorem mkBlocksFrom_nil (bs i : ℕ) : mkBlocksFrom bs i [] = [] := by
  unfold mkBlocksFrom; rfl

theorem mkBlocksFrom_pos (bs i : ℕ) (l : List TrialResult) (hbs : bs ≠ 0) (hl : l ≠ []) :
    mkBlocksFrom bs i l
      = mkBlock bs i (l.take bs) :: mkBlocksFrom bs (i + bs) (l.drop bs) := by
  match l with
  | [] => exact absurd rfl hl
  | x :: xs => rw [mkBlocksFrom]; simp [hbs]

/-- A one-piece chunking: when the whole list fits in one block. -/
theorem mkBlocksFrom_single (bs i : ℕ) (l : List TrialResult)
    (hbs : bs ≠ 0) (hl : l ≠ []) (hle : l.length ≤ bs) :
    mkBlocksFrom bs i l = [mkBlock bs i l] := by
  rw [mkBlocksFrom_pos bs i l hbs hl, List.take_of_length_le hle,
    List.drop_eq_nil_of_le hle, mkBlocksFrom_nil]

instance : Inhabited BlockResult := ⟨⟨0, 0, 0, 0, 0, 0, []⟩⟩

/-- The trial list of a run has exactly `nTrials` entries. -/
theorem run_trials_length (e : Engine) :
    (IPDEngine.run e).1.trials.length = e.config.nTrials :=
  runTrials_length e.config e.config.nTrials 0 _

/-- The blocks of a run are the block aggregation of its own trial list. -/
theorem run_blocks_eq (e : Engine) :
    (IPDEngine.run e).1.blocks = mkBlocks e.config.blockSize (IPDEngine.run e).1.trials :=
  rfl

/-- C8: a run with `nTrials = 0` returns empty trial and block sequences;
a run with `0 < nTrials < blockSize` returns exactly one block, built
from the whole (length-`nTrials`) trial list. -/
theorem run_boundary (cfg : SimulationConfig) :
    (cfg.nTrials = 0 →
      (IPDEngine.run (mkEngine cfg)).1.trials = []
      ∧ (IPDEngine.run (mkEngine cfg)).1.blocks = [])
    ∧ (0 < cfg.nTrials → cfg.nTrials < cfg.blockSize →
      (IPDEngine.run (mkEngine cfg)).1.trials.length = cfg.nTrials
      ∧ (IPDEngine.run (mkEngine cfg)).1.blocks
          = [mkBlock cfg.blockSize 0 (IPDEngine.run (mkEngine cfg)).1.trials]) := by
  have hlen : (IPDEngine.run (mkEngine cfg)).1.trials.length = cfg.nTrials :=
    run_trials_length (mkEngine cfg)
  have hblocks : (IPDEngine.run (mkEngine cfg)).1.blocks
      = mkBlocks cfg.blockSize (IPDEngine.run (mkEngine cfg)).1.trials :=
    run_blocks_eq (mkEngine cfg)
  constructor
  · intro h0
    have ht : (IPDEngine.run (mkEngine cfg)).1.trials = [] :=
      List.length_eq_zero.mp (hlen.trans h0)
    refine ⟨ht, ?_⟩
    rw [hblocks, ht]
    exact mkBlocksFrom_nil _ _
  · intro hpos hlt
    refine ⟨hlen, ?_⟩
    rw [hblocks]
    exact mkBlocksFrom_single _ _ _ (by omega)
      (by intro hnil; rw [hnil] at hlen; simp at hlen; omega)
      (by omega)

/-- C2: with `nTrials = 10` and `blockSize = 4` a run yields exactly the
three blocks over the slices of sizes 4, 4 and 2; block 0's `meanReward`
is the arithmetic mean of the rewards of trials 0–3; and every block's
`pctCooperate` is `100 *` (count of agent Cooperate in the block's
slice) divided by that slice's size. -/
theorem run_blocks_10_4 (cfg : SimulationConfig)
    (h10 : cfg.nTrials = 10) (h4 : cfg.blockSize = 4) :
    (IPDEngine.run (mkEngine cfg)).1.trials.length = 10
    ∧ (IPDEngine.run (mkEngine cfg)).1.blocks
        = [mkBlock 4 0 ((IPDEngine.run (mkEngine cfg)).1.trials.take 4),
           mkBlock 4 4 (((IPDEngine.run (mkEngine cfg)).1.trials.drop 4).take 4),
           mkBlock 4 8 ((IPDEngine.run (mkEngine cfg)).1.trials.drop 8)]
    ∧ ((IPDEngine.run (mkEngine cfg)).1.trials.take 4).length = 4
    ∧ (((IPDEngine.run (mkEngine cfg)).1.trials.drop 4).take 4).length = 4
    ∧ ((IPDEngine.run (mkEngine cfg)).1.trials.drop 8).length = 2
    ∧ ((IPDEngine.run (mkEngine cfg)).1.blocks.getD 0 default).meanReward
        = (((IPDEngine.run (mkEngine cfg)).1.trials.getD 0 default).reward
            + ((IPDEngine.run (mkEngine cfg)).1.trials.getD 1 default).reward
            + ((IPDEngine.run (mkEngine cfg)).1.trials.getD 2 default).reward
            + ((IPDEngine.run (mkEngine cfg)).1.trials.getD 3 default).reward) / 4
    ∧ ∀ j, j < 3 →
        ((IPDEngine.run (mkEngine cfg)).1.blocks.getD j default).pctCooperate
          = 100 * (countAgentC (((IPDEngine.run (mkEngine cfg)).1.trials.drop (4 * j)).take 4) : ℝ)
              / ((((IPDEngine.run (mkEngine cfg)).1.trials.drop (4 * j)).take 4).length : ℝ) := by
  have hlen : (IPDEngine.run (mkEngine cfg)).1.trials.length = 10 := by
    rw [run_trials_length (mkEngine cfg)]; exact h10
  have hblocks : (IPDEngine.run (mkEngine cfg)).1.blocks
      = mkBlocks 4 (IPDEngine.run (mkEngine cfg)).1.trials := by
    have h : (IPDEngine.run (mkEngine cfg)).1.blocks
        = mkBlocks cfg.blockSize (IPDEngine.run (mkEngine cfg)).1.trials :=
      run_blocks_eq (mkEngine cfg)
    rw [h4] at h; exact h
  set L := (IPDEngine.run (mkEngine cfg)).1.trials with hL
  clear_value L
  rcases L with _ | ⟨t0, L⟩; · simp at hlen
  rcases L with _ | ⟨t1, L⟩; · simp at hlen
  rcases L with _ | ⟨t2, L⟩; · simp at hlen
  rcases L with _ | ⟨t3, rest⟩; · simp at hlen
  have hrest : rest.length = 6 := by simpa using hlen
  have hdrop4 : (t0 :: t1 :: t2 :: t3 :: rest).drop 4 = rest := rfl
  have hdrop8 : (t0 :: t1 :: t2 :: t3 :: rest).drop 8 = rest.drop 4 := rfl
  have hmk : mkBlocks 4 (t0 :: t1 :: t2 :: t3 :: rest)
      = [mkBlock 4 0 [t0, t1, t2, t3], mkBlock 4 4 (rest.take 4), mkBlock 4 8 (rest.drop 4)] := by
    unfold mkBlocks
    rw [mkBlocksFrom_pos 4 0 _ (by omega) (by simp)]
    rw [show ((t0 :: t1 :: t2 :: t3 :: rest).take 4) = [t0, t1, t2, t3] from rfl, hdrop4]
    rw [mkBlocksFrom_pos 4 4 rest (by omega) (by intro h; rw [h] at hrest; simp at hrest)]
    rw [mkBlocksFrom_single 4 8 (rest.drop 4) (by omega)
      (by intro h; rw [List.drop_eq_nil_iff] at h; omega)
      (by rw [List.length_drop]; omega)]
  rw [hblocks, hmk]
  refine ⟨hlen, rfl, rfl, ?_, ?_, ?_, ?_⟩
  · rw [List.length_take, hdrop4]; omega
  · rw [hdrop8, List.length_drop]; omega
  · show (mkBlock 4 0 [t0, t1, t2, t3]).meanReward = _
    unfold mkBlock
    simp only [List.map_cons, List.map_nil, List.sum_cons, List.sum_nil, List.length_cons,
      List.length_nil, List.getD_eq_getElem?_getD]
    norm_num
    ring
  · intro j hj
    have hpct : ∀ (i : ℕ) (slice : List TrialResult),
        (mkBlock 4 i slice).pctCooperate
          = 100 * (countAgentC slice : ℝ) / (slice.length : ℝ) := by
      intro i slice
      unfold mkBlock
      ring
    interval_cases j
    · show (mkBlock 4 0 [t0, t1, t2, t3]).pctCooperate = _
      rw [hpct, show ((t0 :: t1 :: t2 :: t3 :: rest).drop (4 * 0)).take 4 = [t0, t1, t2, t3] from rfl]
    · show (mkBlock 4 4 (rest.take 4)).pctCooperate = _
      rw [hpct, show ((t0 :: t1 :: t2 :: t3 :: rest).drop (4 * 1)).take 4 = rest.take 4 from rfl]
    · show (mkBlock 4 8 (rest.drop 4)).pctCooperate = _
      rw [hpct, show ((t0 :: t1 :: t2 :: t3 :: rest).drop (4 * 2)).take 4 = (rest.drop 4).take 4 from rfl]
      rw [show (rest.drop 4).take 4 = rest.drop 4 from
        List.take_of_length_le (by rw [List.length_drop]; omega)]

/-- Witness for C2 at `cfgD` (10 trials, blocks of 4): 10 trials, 3 blocks. -/
theorem run_blocks_10_4_witness :
    (IPDEngine.run (mkEngine cfgD)).1.trials.length = 10
    ∧ (IPDEngine.run (mkEngine cfgD)).1.blocks.length = 3 := by
  have h := run_blocks_10_4 cfgD rfl rfl
  exact ⟨h.1, by rw [h.2.1]; rfl⟩

/-! ### Softmax selection lemmas -/

theorem selectLoop_none_spec (r : ℝ) :
    ∀ (l : List ℝ) (c : ℝ) (i : ℕ), selectLoop r l c i = none →
      ∀ j, j < l.length → ¬ r < c + (l.take (j + 1)).sum := by
  intro l
  induction l with
  | nil => intro c i _ j hj; simp at hj
  | cons p rest ih =>
    intro c i h j hj
    unfold selectLoop at h
    by_cases hr : r < c + p
    · simp [hr] at h
    · rw [if_neg hr] at h
      match j with
      | 0 => simpa using hr
      | j' + 1 =>
        have := ih (c + p) (i + 1) h j' (by simpa using hj)
        simpa [add_assoc] using this

theorem selectLoop_some_spec (r : ℝ) :
    ∀ (l : List ℝ) (c : ℝ) (i k : ℕ), selectLoop r l c i = some k →
      i ≤ k ∧ k - i < l.length ∧ r < c + (l.take (k - i + 1)).sum
      ∧ ∀ j, j < k - i → ¬ r < c + (l.take (j + 1)).sum := by
  intro l
  induction l with
  | nil => intro c i k h; simp [selectLoop] at h
  | cons p rest ih =>
    intro c i k h
    unfold selectLoop at h
    by_cases hr : r < c + p
    · rw [if_pos hr] at h
      have hk : k = i := by simpa using h.symm
      subst hk
      refine ⟨le_refl _, by simp, by simpa using hr, ?_⟩
      intro j hj; omega
    · rw [if_neg hr] at h
      obtain ⟨h1, h2, h3, h4⟩ := ih (c + p) (i + 1) k h
      have hki : k - i = (k - (i + 1)) + 1 := by omega
      refine ⟨by omega, by simp; omega, ?_, ?_⟩
      · rw [hki]
        simpa [add_assoc] using h3
      · intro j hj
        match j with
        | 0 => simpa using hr
        | j' + 1 =>
          have := h4 j' (by omega)
          simpa [add_assoc] using this

/-- C6: the softmax divides by `max(τ, 1e-6)` — for `τ ≤ 0` it behaves as
at temperature `1e-6`, never dividing by zero; for `τ > 0` the two-entry
output sums to 1 with every component strictly inside (0,1); and the
sampler returns the first index whose cumulative probability exceeds the
drawn `r`, the last index being the fallback when none does. -/
theorem softmax_select_spec :
    (∀ (values : List ℝ) (tau : ℝ), tau ≤ 0 →
      softmax values tau = softmax values 0.000001)
    ∧ (∀ a b tau : ℝ, 0 < tau →
      (softmax [a, b] tau).sum = 1
      ∧ ∀ p ∈ softmax [a, b] tau, 0 < p ∧ p < 1)
    ∧ (∀ (probs : List ℝ) (r : ℝ),
      (∀ j, j < selectActionIndex probs r → ¬ r < (probs.take (j + 1)).sum)
      ∧ (r < (probs.take (selectActionIndex probs r + 1)).sum
        ∨ selectActionIndex probs r = probs.length - 1)) := by
  refine ⟨?_, ?_, ?_⟩
  · intro values tau htau
    unfold softmax
    rw [show max tau (0.000001 : ℝ) = max (0.000001 : ℝ) (0.000001 : ℝ) from by
      rw [max_self]; exact max_eq_right (le_trans htau (by norm_num))]
  · intro a b tau _
    constructor
    · simp only [softmax, List.map_cons, List.map_nil, List.sum_cons, List.sum_nil, add_zero]
      rw [div_add_div_same]
      exact div_self (ne_of_gt (add_pos (Real.exp_pos _) (Real.exp_pos _)))
    · intro p hp
      simp only [softmax, List.map_cons, List.map_nil, List.sum_cons, List.sum_nil, add_zero,
        List.mem_cons, List.not_mem_nil, or_false] at hp
      have hS : (0 : ℝ) < Real.exp (a / max tau 0.000001) + Real.exp (b / max tau 0.000001) :=
        add_pos (Real.exp_pos _) (Real.exp_pos _)
      rcases hp with h | h <;> subst h
      · exact ⟨div_pos (Real.exp_pos _) hS,
          (div_lt_one hS).mpr (by have := Real.exp_pos (b / max tau 0.000001); linarith)⟩
      · exact ⟨div_pos (Real.exp_pos _) hS,
          (div_lt_one hS).mpr (by have := Real.exp_pos (a / max tau 0.000001); linarith)⟩
  · intro probs r
    unfold selectActionIndex
    cases h : selectLoop r probs 0 0 with
    | none =>
      have hn := selectLoop_none_spec r probs 0 0 h
      refine ⟨?_, Or.inr rfl⟩
      intro j hj
      simp only [Option.getD_none] at hj
      have := hn j (by omega)
      simpa using this
    | some k =>
      obtain ⟨_, h2, h3, h4⟩ := selectLoop_some_spec r probs 0 0 k h
      simp only [Nat.sub_zero] at h2 h3 h4
      refine ⟨?_, Or.inl (by simpa using h3)⟩
      intro j hj
      simp only [Option.getD_some] at hj
      have := h4 j hj
      simpa using this

/-! ### Grim-Trigger trace lemmas -/

theorem runTrials_succ (cfg : SimulationConfig) (n t : ℕ) (st : LoopState) :
    (runTrials cfg (n + 1) t st).1
      = (step cfg t st).1 :: (runTrials cfg n (t + 1) (step cfg t st).2).1 := rfl

theorem step_oppGrim (cfg : SimulationConfig) (t : ℕ) (st : LoopState)
    (h : cfg.opponentStrategy = Strategy.GRIM_TRIGGER) :
    (step cfg t st).2.oppGrim
      = (if st.agentLast = some Action.D then true else st.oppGrim) := by
  simp only [step, h, determineStrategyAction]

theorem step_oppAction (cfg : SimulationConfig) (t : ℕ) (st : LoopState)
    (h : cfg.opponentStrategy = Strategy.GRIM_TRIGGER) :
    (step cfg t st).1.opponentAction
      = (if (if st.agentLast = some Action.D then true else st.oppGrim)
         then Action.D else Action.C) := by
  simp only [step, h, determineStrategyAction]

theorem step_agentLast (cfg : SimulationConfig) (t : ℕ) (st : LoopState) :
    (step cfg t st).2.agentLast = some (step cfg t st).1.agentAction := by
  simp only [step]

theorem step_oppLast (cfg : SimulationConfig) (t : ℕ) (st : LoopState) :
    (step cfg t st).2.oppLast = some (step cfg t st).1.opponentAction := by
  simp only [step]

theorem step_agentGrim (cfg : SimulationConfig) (t : ℕ) (st : LoopState)
    (h : cfg.agentStrategy = Strategy.GRIM_TRIGGER) :
    (step cfg t st).2.agentGrim
      = (if st.oppLast = some Action.D then true else st.agentGrim) := by
  simp only [step, agentChoice, h, determineStrategyAction]
  rw [if_neg (show ¬ Strategy.GRIM_TRIGGER = Strategy.RL_AGENT from by decide)]

theorem step_agentActionGrim (cfg : SimulationConfig) (t : ℕ) (st : LoopState)
    (h : cfg.agentStrategy = Strategy.GRIM_TRIGGER) :
    (step cfg t st).1.agentAction
      = (if (if st.oppLast = some Action.D then true else st.agentGrim)
         then Action.D else Action.C) := by
  simp only [step, agentChoice, h, determineStrategyAction]
  rw [if_neg (show ¬ Strategy.GRIM_TRIGGER = Strategy.RL_AGENT from by decide)]

/-- Along a run against a Grim-Trigger opponent, the opponent defects at
trial `m` exactly when the flag was already set, the incoming last agent
action was a defection, or some earlier recorded trial has the agent
defecting. -/
theorem runTrials_grim_iff (cfg : SimulationConfig)
    (h : cfg.opponentStrategy = Strategy.GRIM_TRIGGER) :
    ∀ (n t : ℕ) (st : LoopState) (m : ℕ), m < n →
      (((runTrials cfg n t st).1.getD m default).opponentAction = Action.D
        ↔ (st.oppGrim = true ∨ st.agentLast = some Action.D
            ∨ ∃ j, j < m ∧ ((runTrials cfg n t st).1.getD j default).agentAction = Action.D)) := by
  intro n
  induction n with
  | zero => intro t st m hm; omega
  | succ k ih =>
    intro t st m hm
    rw [runTrials_succ]
    match m with
    | 0 =>
      simp only [List.getD_eq_getElem?_getD, List.getElem?_cons_zero, Option.getD_some]
      rw [step_oppAction cfg t st h]
      constructor
      · intro hD
        by_cases hc : (if st.agentLast = some Action.D then true else st.oppGrim) = true
        · by_cases ha : st.agentLast = some Action.D
          · exact Or.inr (Or.inl ha)
          · rw [if_neg ha] at hc; exact Or.inl hc
        · rw [if_neg hc] at hD; exact absurd hD (by decide)
      · intro hyp
        have hc : (if st.agentLast = some Action.D then true else st.oppGrim) = true := by
          rcases hyp with hg | ha | ⟨j, hj, _⟩
          · by_cases ha : st.agentLast = some Action.D
            · rw [if_pos ha]
            · rw [if_neg ha]; exact hg
          · rw [if_pos ha]
          · omega
        rw [hc, if_pos rfl]
    | m' + 1 =>
      simp only [List.getD_eq_getElem?_getD, List.getElem?_cons_succ]
      have hm' : m' < k := by omega
      have hih := ih (t + 1) (step cfg t st).2 m' hm'
      simp only [List.getD_eq_getElem?_getD] at hih
      rw [hih, step_oppGrim cfg t st h, step_agentLast cfg t st]
      constructor
      · intro hyp
        rcases hyp with hg | ha | ⟨j, hj, hja⟩
        · by_cases haL : st.agentLast = some Action.D
          · exact Or.inr (Or.inl haL)
          · rw [if_neg haL] at hg; exact Or.inl hg
        · refine Or.inr (Or.inr ⟨0, by omega, ?_⟩)
          simpa using Option.some.inj ha
        · exact Or.inr (Or.inr ⟨j + 1, by omega, by simpa using hja⟩)
      · intro hyp
        rcases hyp with hg | ha | ⟨j, hj, hja⟩
        · refine Or.inl ?_
          by_cases haL : st.agentLast = some Action.D
          · rw [if_pos haL]
          · rw [if_neg haL]; exact hg
        · refine Or.inl ?_
          rw [if_pos ha]
        · match j, hj, hja with
          | 0, hj, hja =>
            refine Or.inr (Or.inl ?_)
            simp only [List.getElem?_cons_zero, Option.getD_some] at hja
            exact congrArg some hja
          | j' + 1, hj, hja =>
            refine Or.inr (Or.inr ⟨j', by omega, ?_⟩)
            simpa using hja

/-- Along a run whose agent plays Grim-Trigger, the agent defects at
trial `m` exactly when the flag was already set, the incoming last
opponent action was a defection, or some earlier recorded trial has the
opponent defecting. -/
theorem runTrials_grimAgent_iff (cfg : SimulationConfig)
    (h : cfg.agentStrategy = Strategy.GRIM_TRIGGER) :
    ∀ (n t : ℕ) (st : LoopState) (m : ℕ), m < n →
      (((runTrials cfg n t st).1.getD m default).agentAction = Action.D
        ↔ (st.agentGrim = true ∨ st.oppLast = some Action.D
            ∨ ∃ j, j < m ∧ ((runTrials cfg n t st).1.getD j default).opponentAction = Action.D)) := by
  intro n
  induction n with
  | zero => intro t st m hm; omega
  | succ k ih =>
    intro t st m hm
    rw [runTrials_succ]
    match m with
    | 0 =>
      simp only [List.getD_eq_getElem?_getD, List.getElem?_cons_zero, Option.getD_some]
      rw [step_agentActionGrim cfg t st h]
      constructor
      · intro hD
        by_cases hc : (if st.oppLast = some Action.D then true else st.agentGrim) = true
        · by_cases ha : st.oppLast = some Action.D
          · exact Or.inr (Or.inl ha)
          · rw [if_neg ha] at hc; exact Or.inl hc
        · rw [if_neg hc] at hD; exact absurd hD (by decide)
      · intro hyp
        have hc : (if st.oppLast = some Action.D then true else st.agentGrim) = true := by
          rcases hyp with hg | ha | ⟨j, hj, _⟩
          · by_cases ha : st.oppLast = some Action.D
            · rw [if_pos ha]
            · rw [if_neg ha]; exact hg
          · rw [if_pos ha]
          · omega
        rw [hc, if_pos rfl]
    | m' + 1 =>
      simp only [List.getD_eq_getElem?_getD, List.getElem?_cons_succ]
      have hm' : m' < k := by omega
      have hih := ih (t + 1) (step cfg t st).2 m' hm'
      simp only [List.getD_eq_getElem?_getD] at hih
      rw [hih, step_agentGrim cfg t st h, step_oppLast cfg t st]
      constructor
      · intro hyp
        rcases hyp with hg | ha | ⟨j, hj, hja⟩
        · by_cases haL : st.oppLast = some Action.D
          · exact Or.inr (Or.inl haL)
          · rw [if_neg haL] at hg; exact Or.inl hg
        · refine Or.inr (Or.inr ⟨0, by omega, ?_⟩)
          simpa using Option.some.inj ha
        · exact Or.inr (Or.inr ⟨j + 1, by omega, by simpa using hja⟩)
      · intro hyp
        rcases hyp with hg | ha | ⟨j, hj, hja⟩
        · refine Or.inl ?_
          by_cases haL : st.oppLast = some Action.D
          · rw [if_pos haL]
          · rw [if_neg haL]; exact hg
        · refine Or.inl ?_
          rw [if_pos ha]
        · match j, hj, hja with
          | 0, hj, hja =>
            refine Or.inr (Or.inl ?_)
            simp only [List.getElem?_cons_zero, Option.getD_some] at hja
            exact congrArg some hja
          | j' + 1, hj, hja =>
            refine Or.inr (Or.inr ⟨j', by omega, ?_⟩)
            simpa using hja

/-- Specialisation of the grim trace to a full run from a fresh engine:
the Grim-Trigger opponent defects at trial `m` exactly when the agent
defected at some earlier recorded trial. -/
theorem run_grim_iff (cfg : SimulationConfig)
    (hopp : cfg.opponentStrategy = Strategy.GRIM_TRIGGER) (m : ℕ) (hm : m < cfg.nTrials) :
    ((IPDEngine.run (mkEngine cfg)).1.trials.getD m default).opponentAction = Action.D
      ↔ ∃ j, j < m
          ∧ ((IPDEngine.run (mkEngine cfg)).1.trials.getD j default).agentAction = Action.D := by
  have h := runTrials_grim_iff cfg hopp cfg.nTrials 0
    { agentLast := none, oppLast := none, agentGrim := false, oppGrim := false,
      tables :=
        { Q := cfg.initialQ.take cfg.stateMemory.val,
          N := List.replicate cfg.stateMemory.val [0, 0],
          H := cfg.initialH.take cfg.stateMemory.val,
          b := List.replicate cfg.stateMemory.val 0 },
      rng := cfg.seed } m hm
  have htr : (IPDEngine.run (mkEngine cfg)).1.trials
      = (runTrials cfg cfg.nTrials 0
          { agentLast := none, oppLast := none, agentGrim := false, oppGrim := false,
            tables :=
              { Q := cfg.initialQ.take cfg.stateMemory.val,
                N := List.replicate cfg.stateMemory.val [0, 0],
                H := cfg.initialH.take cfg.stateMemory.val,
                b := List.replicate cfg.stateMemory.val 0 },
            rng := cfg.seed }).1 := rfl
  rw [htr, h]
  simp

/-- Specialisation of the agent-side grim trace to a full run from a
fresh engine: the Grim-Trigger agent defects at trial `m` exactly when
the opponent defected at some earlier recorded trial. -/
theorem run_grimAgent_iff (cfg : SimulationConfig)
    (hag : cfg.agentStrategy = Strategy.GRIM_TRIGGER) (m : ℕ) (hm : m < cfg.nTrials) :
    ((IPDEngine.run (mkEngine cfg)).1.trials.getD m default).agentAction = Action.D
      ↔ ∃ j, j < m
          ∧ ((IPDEngine.run (mkEngine cfg)).1.trials.getD j default).opponentAction = Action.D := by
  have h := runTrials_grimAgent_iff cfg hag cfg.nTrials 0
    { agentLast := none, oppLast := none, agentGrim := false, oppGrim := false,
      tables :=
        { Q := cfg.initialQ.take cfg.stateMemory.val,
          N := List.replicate cfg.stateMemory.val [0, 0],
          H := cfg.initialH.take cfg.stateMemory.val,
          b := List.replicate cfg.stateMemory.val 0 },
      rng := cfg.seed } m hm
  have htr : (IPDEngine.run (mkEngine cfg)).1.trials
      = (runTrials cfg cfg.nTrials 0
          { agentLast := none, oppLast := none, agentGrim := false, oppGrim := false,
            tables :=
              { Q := cfg.initialQ.take cfg.stateMemory.val,
                N := List.replicate cfg.stateMemory.val [0, 0],
                H := cfg.initialH.take cfg.stateMemory.val,
                b := List.replicate cfg.stateMemory.val 0 },
            rng := cfg.seed }).1 := rfl
  rw [htr, h]
  simp

/-- C5: in every run containing a Grim-Trigger player — in either role —
if the first defection the Grim-Trigger player observes from the other
side is at trial `k`, the Grim-Trigger player still cooperates at trial
`k` itself (the check precedes the action, and nothing earlier was
observed), and defects at every later trial of the run, whatever the
other side does afterwards.  The first conjunct covers a Grim-Trigger
opponent, the second a Grim-Trigger agent. -/
theorem grim_trigger_latch (cfg : SimulationConfig) (k : ℕ) (hk : k < cfg.nTrials) :
    (cfg.opponentStrategy = Strategy.GRIM_TRIGGER →
      ((IPDEngine.run (mkEngine cfg)).1.trials.getD k default).agentAction = Action.D →
      (∀ j, j < k →
        ((IPDEngine.run (mkEngine cfg)).1.trials.getD j default).agentAction = Action.C) →
      ((IPDEngine.run (mkEngine cfg)).1.trials.getD k default).opponentAction = Action.C
      ∧ ∀ j, k < j → j < cfg.nTrials →
          ((IPDEngine.run (mkEngine cfg)).1.trials.getD j default).opponentAction = Action.D)
    ∧ (cfg.agentStrategy = Strategy.GRIM_TRIGGER →
      ((IPDEngine.run (mkEngine cfg)).1.trials.getD k default).opponentAction = Action.D →
      (∀ j, j < k →
        ((IPDEngine.run (mkEngine cfg)).1.trials.getD j default).opponentAction = Action.C) →
      ((IPDEngine.run (mkEngine cfg)).1.trials.getD k default).agentAction = Action.C
      ∧ ∀ j, k < j → j < cfg.nTrials →
          ((IPDEngine.run (mkEngine cfg)).1.trials.getD j default).agentAction = Action.D) := by
  constructor
  · intro hopp hD hC
    constructor
    · have hnotD :
          ¬ ((IPDEngine.run (mkEngine cfg)).1.trials.getD k default).opponentAction = Action.D := by
        intro hd
        obtain ⟨j, hj, hja⟩ := (run_grim_iff cfg hopp k hk).mp hd
        rw [hC j hj] at hja
        exact absurd hja (by decide)
      cases hact : ((IPDEngine.run (mkEngine cfg)).1.trials.getD k default).opponentAction with
      | C => rfl
      | D => exact absurd hact hnotD
    · intro j hkj hj
      exact (run_grim_iff cfg hopp j hj).mpr ⟨k, hkj, hD⟩
  · intro hag hD hC
    constructor
    · have hnotD :
          ¬ ((IPDEngine.run (mkEngine cfg)).1.trials.getD k default).agentAction = Action.D := by
        intro hd
        obtain ⟨j, hj, hja⟩ := (run_grimAgent_iff cfg hag k hk).mp hd
        rw [hC j hj] at hja
        exact absurd hja (by decide)
      cases hact : ((IPDEngine.run (mkEngine cfg)).1.trials.getD k default).agentAction with
      | C => rfl
      | D => exact absurd hact hnotD
    · intro j hkj hj
      exact (run_grimAgent_iff cfg hag j hj).mpr ⟨k, hkj, hD⟩

/-- Witness for C5: at `cfgE` (Always-Defect agent vs Grim-Trigger
opponent, 3 trials) the first defection is at trial 0, so the grim
opponent cooperates at 0 and defects after; at `cfgF` (Grim-Trigger
agent vs Always-Defect opponent) symmetrically for the grim agent. -/
theorem grim_trigger_latch_witness :
    (((IPDEngine.run (mkEngine cfgE)).1.trials.getD 0 default).opponentAction = Action.C
      ∧ ∀ j, 0 < j → j < cfgE.nTrials →
          ((IPDEngine.run (mkEngine cfgE)).1.trials.getD j default).opponentAction = Action.D)
    ∧ (((IPDEngine.run (mkEngine cfgF)).1.trials.getD 0 default).agentAction = Action.C
      ∧ ∀ j, 0 < j → j < cfgF.nTrials →
          ((IPDEngine.run (mkEngine cfgF)).1.trials.getD j default).agentAction = Action.D) :=
  ⟨(grim_trigger_latch cfgE 0 (by decide)).1 rfl (by rfl)
      (fun j hj => absurd hj (by omega)),
   (grim_trigger_latch cfgF 0 (by decide)).2 rfl (by rfl)
      (fun j hj => absurd hj (by omega))⟩

/-! ### RNG cursor persistence across run calls -/

/-- The loop state at the top of the first `run (mkEngine cfgA)`. -/
noncomputable def stA0 : LoopState :=
  { agentLast := none, oppLast := none, agentGrim := false, oppGrim := false,
    tables := { Q := [[0, 0]], N := [[0, 0]], H := [[0, 0]], b := [0] }, rng := 1 }

/-- The loop state at the top of the second `run` on the same engine:
only the RNG cursor differs. -/
noncomputable def stA1 : LoopState :=
  { agentLast := none, oppLast := none, agentGrim := false, oppGrim := false,
    tables := { Q := [[0, 0]], N := [[0, 0]], H := [[0, 0]], b := [0] }, rng := 1831565814 }

theorem seededRNG_next_one : SeededRNG.next 1 = (2693262067, 1831565814) := by decide

theorem seededRNG_next_two : SeededRNG.next 1831565814 = (11749833, 3663131627) := by decide

/-- A step with a Random-strategy agent draws once and compares to `pCooperate`. -/
theorem step_random_agent (cfg : SimulationConfig) (t : ℕ) (st : LoopState)
    (h : cfg.agentStrategy = Strategy.RANDOM) :
    (step cfg t st).1.agentAction
      = (if (nextFloat st.rng).1 < cfg.pCooperate then Action.C else Action.D) := by
  simp only [step, agentChoice, h, determineStrategyAction]
  rw [if_neg (show ¬ Strategy.RANDOM = Strategy.RL_AGENT from by decide)]

/-- C10: the RNG is seeded once in the constructor and its cursor
persists across `run` calls on the same engine: with configuration
`cfgA` (a Random(½) agent, seed 1), running the same engine twice
produces two different trial sequences, so reproducing a trajectory
requires a fresh engine. -/
theorem rng_cursor_persists :
    (mkEngine cfgA).rngState = cfgA.seed
    ∧ (IPDEngine.run (mkEngine cfgA)).1.trials
        ≠ (IPDEngine.run (IPDEngine.run (mkEngine cfgA)).2).1.trials := by
  refine ⟨rfl, ?_⟩
  have htr1 : (IPDEngine.run (mkEngine cfgA)).1.trials = [(step cfgA 0 stA0).1] := rfl
  have htr2 : (IPDEngine.run (IPDEngine.run (mkEngine cfgA)).2).1.trials
      = [(step cfgA 0 stA1).1] := rfl
  have ha1 : (step cfgA 0 stA0).1.agentAction = Action.D := by
    rw [step_random_agent cfgA 0 stA0 rfl]
    rw [show stA0.rng = (1 : ℕ) from rfl,
      show cfgA.pCooperate = (0.5 : ℝ) from rfl,
      show (nextFloat (1 : ℕ)).1 = ((2693262067 : ℕ) : ℝ) / 4294967296 from by
        rw [nextFloat, seededRNG_next_one]]
    rw [if_neg (by norm_num)]
  have ha2 : (step cfgA 0 stA1).1.agentAction = Action.C := by
    rw [step_random_agent cfgA 0 stA1 rfl]
    rw [show stA1.rng = (1831565814 : ℕ) from rfl,
      show cfgA.pCooperate = (0.5 : ℝ) from rfl,
      show (nextFloat (1831565814 : ℕ)).1 = ((11749833 : ℕ) : ℝ) / 4294967296 from by
        rw [nextFloat, seededRNG_next_two]]
    rw [if_pos (by norm_num)]
  intro h
  have hEq := congrArg (fun l => (l.getD 0 default).agentAction) h
  simp only [htr1, htr2, List.getD_eq_getElem?_getD, List.getElem?_cons_zero,
    Option.getD_some] at hEq
  rw [ha1, ha2] at hEq
  exact absurd hEq (by decide)

/-- Witness for C6: clamping at τ = −1 and normalization at τ = 1. -/
theorem softmax_select_spec_witness :
    softmax [(0 : ℝ), 0] (-1) = softmax [(0 : ℝ), 0] 0.000001
    ∧ (softmax [(0 : ℝ), 0] 1).sum = 1 :=
  ⟨softmax_select_spec.1 [(0 : ℝ), 0] (-1) (by norm_num),
   (softmax_select_spec.2.1 0 0 1 (by norm_num)).1⟩

/-- Witness for C8: `cfgB` has no trials; `cfgC` has 2 trials in blocks of 5. -/
theorem run_boundary_witness :
    ((IPDEngine.run (mkEngine cfgB)).1.trials = []
      ∧ (IPDEngine.run (mkEngine cfgB)).1.blocks = [])
    ∧ ((IPDEngine.run (mkEngine cfgC)).1.trials.length = cfgC.nTrials
      ∧ (IPDEngine.run (mkEngine cfgC)).1.blocks
          = [mkBlock cfgC.blockSize 0 (IPDEngine.run (mkEngine cfgC)).1.trials]) :=
  ⟨(run_boundary cfgB).1 rfl, (run_boundary cfgC).2 (by decide) (by decide)⟩

/-- C9: `run` never mutates the caller's configuration — the engine
returned by `run` carries the configuration unchanged, in particular
`initialQ` and `initialH`; the working tables are fresh copies built
inside the invocation. -/
theorem run_preserves_config (e : Engine) :
    (IPDEngine.run e).2.config = e.config
    ∧ (IPDEngine.run e).2.config.initialQ = e.config.initialQ
    ∧ (IPDEngine.run e).2.config.initialH = e.config.initialH :=
  ⟨rfl, rfl, rfl⟩

end IPD
